import Mathlib

/-!
Verification of the move state-change journal of the game engine:
the functions `createCheckState`, `createAttackersState`,
`createEnPassantState`, `createSpecialRightsState`, `createMoveRuleState`,
`applyMove` and `applyState`, shallowly embedded from the source, together
with proofs of the specification's claims about them.

JavaScript object mutation is modelled by explicit state passing: every
function that mutates a `Move` or the `gamefile` returns the updated value.
JavaScript reference identity (`===`) on en-passant objects is modelled by
an `id` field on `EnPassantRef`, so Lean equality of `EnPassantRef` values
coincides with `===` of the corresponding objects.
-/

/-- Board coordinates (`Coords` in the source). -/
abbrev Coords := Int × Int

/-- The string key of a square (`CoordsKey` in the source, e.g. "5,1"). -/
abbrev Coords.Key := String

/-- `type inCheck = false | Coords[]` in the source: `none` models `false`,
`some l` models the list of threatened-square coordinates. -/
abbrev InCheck := Option (List Coords)

/-- One attacker: the source type is
`{ coords } & ({ slidingCheck: true } | { slidingCheck: false, path? })`.
The `path` type is imported by the source from elsewhere; it is modelled as
a list of coordinates (the claims never inspect it). -/
structure Attacker where
  coords : Coords
  slidingCheck : Bool
  path : Option (List Coords)
deriving DecidableEq, Repr

/-- `type attackers = attacker[]` in the source. -/
abbrev Attackers := List Attacker

/-- The `EnPassant` interface of the source: the en-passant square and the
square of the pawn that double pushed. -/
structure EnPassant where
  square : Coords
  pawn : Coords
deriving DecidableEq, Repr

/-- A JavaScript object holding an `EnPassant` value. The `id` field models
the object's reference identity: two structurally equal objects allocated
separately get different ids, and `a = b` on `EnPassantRef` models `a === b`
in the source. -/
structure EnPassantRef where
  id : Nat
  val : EnPassant
deriving DecidableEq, Repr

/-- The `StateChange` tagged union of the source, one variant per tracked
property kind. `Option` models the optionality of the en-passant fields
(`undefined` is `none`). -/
inductive StateChange where
  | check (current future : InCheck)
  | attackers (current future : Attackers)
  | enpassant (current future : Option EnPassantRef)
  | specialrights (current future : Bool) (coordsKey : Coords.Key)
  | moverulestate (current future : Int)
deriving DecidableEq, Repr

/-- The `MoveState` interface of the source: the two ordered record
sequences of one move. This is the `state` field of a `Move`; the journal
touches nothing else of the move, so the move is modelled by its state. -/
structure MoveState where
  «local» : List StateChange
  global : List StateChange
deriving DecidableEq, Repr

/-- A freshly created move's state: both sequences empty. -/
def emptyMoveState : MoveState := { «local» := [], global := [] }

/-- The fields of the `gamefile` that the journal touches, plus `extra`,
which stands for every other field of the gamefile object (the source never
reads or writes them, which the frame claims make precise). An absent
`gamefile.enpassant` field (after `delete`) is `none`. -/
structure Gamefile (ε : Type) where
  inCheck : InCheck
  attackers : Attackers
  enpassant : Option EnPassantRef
  specialRights : Finset Coords.Key
  moveRuleState : Int
  extra : ε
deriving DecidableEq

/-- `applyState(gamefile, state, forward)` of the source: applies one record
to the gamefile, selecting `future` when `forward` and `current` otherwise.
The source computes `noNewValue` as whether the selected value is
`undefined`; for the `check`, `attackers` and `moverulestate` variants the
selected value is statically non-optional, so `noNewValue` is false there
and the branch reduces to plain assignment. -/
def applyState {ε : Type} (gamefile : Gamefile ε) (state : StateChange) (forward : Bool) :
    Gamefile ε :=
  match state with
  | .specialrights current future coordsKey =>
      if (if forward then future else current) = false then
        { gamefile with specialRights := gamefile.specialRights.erase coordsKey }
      else
        { gamefile with specialRights := insert coordsKey gamefile.specialRights }
  | .check current future =>
      { gamefile with inCheck := if forward then future else current }
  | .attackers current future =>
      { gamefile with attackers := if forward then future else current }
  | .enpassant current future =>
      match (if forward then future else current) with
      | none => { gamefile with enpassant := none }
      | some v => { gamefile with enpassant := some v }
  | .moverulestate current future =>
      { gamefile with moveRuleState := if forward then future else current }

/-- One `for (const change of changes) applyState(gamefile, change, forward)`
loop of `applyMove`: applies a record sequence in list order. -/
def applyStates {ε : Type} (gamefile : Gamefile ε) (changes : List StateChange)
    (forward : Bool) : Gamefile ε :=
  match changes with
  | [] => gamefile
  | change :: rest => applyStates (applyState gamefile change forward) rest forward

/-- `applyMove(gamefile, move, forward, { globalChange })` of the source:
applies `move.state.local` in order, then, only when `globalChange`, applies
`move.state.global` in order, all with the same `forward` flag. -/
def applyMove {ε : Type} (gamefile : Gamefile ε) (move : MoveState) (forward : Bool)
    (globalChange : Bool) : Gamefile ε :=
  let g := applyStates gamefile move.«local» forward
  if globalChange = false then g
  else applyStates g move.global forward

/-- `createCheckState` of the source: appends a `check` record to
`move.state.local` and immediately applies it forward to the gamefile.
Returns the updated move state and gamefile. -/
def createCheckState {ε : Type} (move : MoveState) (current future : InCheck)
    (gamefile : Gamefile ε) : MoveState × Gamefile ε :=
  let newStateChange : StateChange := .check current future
  ({ move with «local» := move.«local» ++ [newStateChange] },
   applyState gamefile newStateChange true)

/-- `createAttackersState` of the source: appends an `attackers` record to
`move.state.local` and immediately applies it forward to the gamefile. -/
def createAttackersState {ε : Type} (move : MoveState) (current future : Attackers)
    (gamefile : Gamefile ε) : MoveState × Gamefile ε :=
  let newStateChange : StateChange := .attackers current future
  ({ move with «local» := move.«local» ++ [newStateChange] },
   applyState gamefile newStateChange true)

/-- Whether a record is an `enpassant` record (the predicate of the
`state => state.type === 'enpassant'` scan in `createEnPassantState`). -/
def isEnpassantChange : StateChange → Bool
  | .enpassant _ _ => true
  | _ => false

/-- In-place mutation `preExistingEnPassantState.future = future` of the
source, in value semantics: replaces the `future` of the first `enpassant`
record of the list. -/
def overwriteFirstEnpassantFuture : List StateChange → Option EnPassantRef →
    List StateChange
  | [], _ => []
  | .enpassant current _ :: rest, future => .enpassant current future :: rest
  | change :: rest, future => change :: overwriteFirstEnpassantFuture rest future

/-- `createEnPassantState` of the source: no-op when `current === future`;
otherwise overwrites the `future` of a pre-existing `enpassant` record of
`move.state.global` if one exists, else appends a new record. -/
def createEnPassantState (move : MoveState) (current future : Option EnPassantRef) :
    MoveState :=
  if current = future then move
  else if (move.global.find? (fun state => isEnpassantChange state)).isSome then
    { move with global := overwriteFirstEnpassantFuture move.global future }
  else
    { move with global := move.global ++ [StateChange.enpassant current future] }

/-- `createSpecialRightsState` of the source: no-op when
`current === future`; otherwise appends a `specialrights` record tagged with
the square key to `move.state.global`. -/
def createSpecialRightsState (move : MoveState) (coordsKey : Coords.Key)
    (current future : Bool) : MoveState :=
  if current = future then move
  else { move with global := move.global ++ [StateChange.specialrights current future coordsKey] }

/-- `createMoveRuleState` of the source: no-op when `current === future`;
otherwise appends a `moverulestate` record to `move.state.global`. -/
def createMoveRuleState (move : MoveState) (current future : Int) : MoveState :=
  if current = future then move
  else { move with global := move.global ++ [StateChange.moverulestate current future] }

/-- Whether a record is a `check` record. -/
def isCheckChange : StateChange → Bool
  | .check _ _ => true
  | _ => false

/-- Whether a record is an `attackers` record. -/
def isAttackersChange : StateChange → Bool
  | .attackers _ _ => true
  | _ => false

/-- Whether a record is a `specialrights` record. -/
def isSpecialrightsChange : StateChange → Bool
  | .specialrights _ _ _ => true
  | _ => false

/-- Whether a record is a `moverulestate` record. -/
def isMoveruleChange : StateChange → Bool
  | .moverulestate _ _ => true
  | _ => false

/-- Whether a record is a `specialrights` record for the square key `k`
(the only records that can change membership of `k` in the rights set). -/
def touchesKey (k : Coords.Key) : StateChange → Bool
  | .specialrights _ _ coordsKey => coordsKey == k
  | _ => false

/-- The record kinds the local factories produce. -/
def localKind (c : StateChange) : Bool :=
  isCheckChange c || isAttackersChange c

/-- The record kinds the global factories produce. -/
def globalKind (c : StateChange) : Bool :=
  isEnpassantChange c || isSpecialrightsChange c || isMoveruleChange c

/-- A record's `current` value agrees with the corresponding tracked field
of the gamefile `g` (for `specialrights`, with membership of the record's
square key in the rights set). -/
def currentMatches {ε : Type} (g : Gamefile ε) : StateChange → Prop
  | .check current _ => g.inCheck = current
  | .attackers current _ => g.attackers = current
  | .enpassant current _ => g.enpassant = current
  | .specialrights current _ coordsKey => (coordsKey ∈ g.specialRights ↔ current = true)
  | .moverulestate current _ => g.moveRuleState = current

instance {ε : Type} [DecidableEq ε] (g : Gamefile ε) (c : StateChange) :
    Decidable (currentMatches g c) := by
  cases c <;> simp only [currentMatches] <;> infer_instance

@[simp]
theorem applyState_check_eq {ε : Type} (g : Gamefile ε) (cur fut : InCheck) (f : Bool) :
    applyState g (.check cur fut) f = { g with inCheck := if f then fut else cur } := rfl

@[simp]
theorem applyState_attackers_eq {ε : Type} (g : Gamefile ε) (cur fut : Attackers) (f : Bool) :
    applyState g (.attackers cur fut) f = { g with attackers := if f then fut else cur } := rfl

@[simp]
theorem applyState_moverule_eq {ε : Type} (g : Gamefile ε) (cur fut : Int) (f : Bool) :
    applyState g (.moverulestate cur fut) f =
      { g with moveRuleState := if f then fut else cur } := rfl

@[simp]
theorem applyState_enpassant_eq {ε : Type} (g : Gamefile ε) (cur fut : Option EnPassantRef)
    (f : Bool) :
    applyState g (.enpassant cur fut) f = { g with enpassant := if f then fut else cur } := by
  cases h : (if f then fut else cur) <;> simp [applyState, h]

theorem applyState_specialrights_eq {ε : Type} (g : Gamefile ε) (cur fut : Bool)
    (k : Coords.Key) (f : Bool) :
    applyState g (.specialrights cur fut k) f =
      (if (if f then fut else cur) = false then
        { g with specialRights := g.specialRights.erase k }
      else { g with specialRights := insert k g.specialRights }) := rfl

@[simp]
theorem applyStates_nil {ε : Type} (g : Gamefile ε) (f : Bool) :
    applyStates g [] f = g := rfl

@[simp]
theorem applyStates_cons {ε : Type} (g : Gamefile ε) (c : StateChange)
    (rest : List StateChange) (f : Bool) :
    applyStates g (c :: rest) f = applyStates (applyState g c f) rest f := rfl

theorem applyStates_append {ε : Type} (g : Gamefile ε) (l₁ l₂ : List StateChange) (f : Bool) :
    applyStates g (l₁ ++ l₂) f = applyStates (applyStates g l₁ f) l₂ f := by
  induction l₁ generalizing g with
  | nil => simp
  | cons c rest ih => simp [ih]

theorem applyState_extra {ε : Type} (g : Gamefile ε) (c : StateChange) (f : Bool) :
    (applyState g c f).extra = g.extra := by
  cases c with
  | check cur fut => rfl
  | attackers cur fut => rfl
  | enpassant cur fut => rw [applyState_enpassant_eq]
  | specialrights cur fut k =>
      rw [applyState_specialrights_eq]
      by_cases h : (if f then fut else cur) = false
      · rw [if_pos h]
      · rw [if_neg h]
  | moverulestate cur fut => rfl

theorem applyStates_extra {ε : Type} (g : Gamefile ε) (L : List StateChange) (f : Bool) :
    (applyStates g L f).extra = g.extra := by
  induction L generalizing g with
  | nil => rfl
  | cons c rest ih => rw [applyStates_cons, ih, applyState_extra]

@[simp]
theorem applyState_specialrights_inCheck {ε : Type} (g : Gamefile ε) (cur fut : Bool)
    (k : Coords.Key) (f : Bool) :
    (applyState g (.specialrights cur fut k) f).inCheck = g.inCheck := by
  rw [applyState_specialrights_eq]
  by_cases h : (if f then fut else cur) = false
  · rw [if_pos h]
  · rw [if_neg h]

@[simp]
theorem applyState_specialrights_attackers {ε : Type} (g : Gamefile ε) (cur fut : Bool)
    (k : Coords.Key) (f : Bool) :
    (applyState g (.specialrights cur fut k) f).attackers = g.attackers := by
  rw [applyState_specialrights_eq]
  by_cases h : (if f then fut else cur) = false
  · rw [if_pos h]
  · rw [if_neg h]

@[simp]
theorem applyState_specialrights_enpassant {ε : Type} (g : Gamefile ε) (cur fut : Bool)
    (k : Coords.Key) (f : Bool) :
    (applyState g (.specialrights cur fut k) f).enpassant = g.enpassant := by
  rw [applyState_specialrights_eq]
  by_cases h : (if f then fut else cur) = false
  · rw [if_pos h]
  · rw [if_neg h]

@[simp]
theorem applyState_specialrights_moveRuleState {ε : Type} (g : Gamefile ε) (cur fut : Bool)
    (k : Coords.Key) (f : Bool) :
    (applyState g (.specialrights cur fut k) f).moveRuleState = g.moveRuleState := by
  rw [applyState_specialrights_eq]
  by_cases h : (if f then fut else cur) = false
  · rw [if_pos h]
  · rw [if_neg h]

@[simp]
theorem applyState_specialrights_specialRights {ε : Type} (g : Gamefile ε) (cur fut : Bool)
    (k : Coords.Key) (f : Bool) :
    (applyState g (.specialrights cur fut k) f).specialRights =
      (if (if f then fut else cur) = false then g.specialRights.erase k
       else insert k g.specialRights) := by
  rw [applyState_specialrights_eq]
  by_cases h : (if f then fut else cur) = false
  · rw [if_pos h, if_pos h]
  · rw [if_neg h, if_neg h]

theorem applyState_frame_inCheck {ε : Type} (g : Gamefile ε) (c : StateChange) (f : Bool)
    (h : isCheckChange c = false) : (applyState g c f).inCheck = g.inCheck := by
  cases c <;> simp_all [isCheckChange]

theorem applyState_frame_attackers {ε : Type} (g : Gamefile ε) (c : StateChange) (f : Bool)
    (h : isAttackersChange c = false) : (applyState g c f).attackers = g.attackers := by
  cases c <;> simp_all [isAttackersChange]

theorem applyState_frame_enpassant {ε : Type} (g : Gamefile ε) (c : StateChange) (f : Bool)
    (h : isEnpassantChange c = false) : (applyState g c f).enpassant = g.enpassant := by
  cases c <;> simp_all [isEnpassantChange]

theorem applyState_frame_moveRuleState {ε : Type} (g : Gamefile ε) (c : StateChange) (f : Bool)
    (h : isMoveruleChange c = false) : (applyState g c f).moveRuleState = g.moveRuleState := by
  cases c <;> simp_all [isMoveruleChange]

theorem applyState_frame_mem {ε : Type} (k : Coords.Key) (g : Gamefile ε) (c : StateChange)
    (f : Bool) (h : touchesKey k c = false) :
    (k ∈ (applyState g c f).specialRights) ↔ k ∈ g.specialRights := by
  cases c with
  | specialrights cur fut k2 =>
      have hk : ¬k = k2 := by
        intro e
        subst e
        simp [touchesKey] at h
      by_cases hb : (if f then fut else cur) = false
      · simp [hb, Finset.mem_erase, hk]
      · simp [hb, Finset.mem_insert, hk]
  | check cur fut => simp
  | attackers cur fut => simp
  | enpassant cur fut => simp
  | moverulestate cur fut => simp

theorem applyState_back_inCheck {ε : Type} (g0 h : Gamefile ε) (c : StateChange)
    (hc : isCheckChange c = true) (hm : currentMatches g0 c) :
    (applyState h c false).inCheck = g0.inCheck := by
  cases c <;> simp_all [isCheckChange, currentMatches]

theorem applyState_back_attackers {ε : Type} (g0 h : Gamefile ε) (c : StateChange)
    (hc : isAttackersChange c = true) (hm : currentMatches g0 c) :
    (applyState h c false).attackers = g0.attackers := by
  cases c <;> simp_all [isAttackersChange, currentMatches]

theorem applyState_back_enpassant {ε : Type} (g0 h : Gamefile ε) (c : StateChange)
    (hc : isEnpassantChange c = true) (hm : currentMatches g0 c) :
    (applyState h c false).enpassant = g0.enpassant := by
  cases c <;> simp_all [isEnpassantChange, currentMatches]

theorem applyState_back_moveRuleState {ε : Type} (g0 h : Gamefile ε) (c : StateChange)
    (hc : isMoveruleChange c = true) (hm : currentMatches g0 c) :
    (applyState h c false).moveRuleState = g0.moveRuleState := by
  cases c <;> simp_all [isMoveruleChange, currentMatches]

theorem applyState_back_mem {ε : Type} (k : Coords.Key) (g0 h : Gamefile ε) (c : StateChange)
    (hc : touchesKey k c = true) (hm : currentMatches g0 c) :
    (k ∈ (applyState h c false).specialRights) ↔ k ∈ g0.specialRights := by
  cases c with
  | specialrights cur fut k2 =>
      have hk : k2 = k := by simpa [touchesKey] using hc
      subst hk
      simp only [currentMatches] at hm
      cases cur with
      | false =>
          simp only [applyState_specialrights_specialRights, if_neg, Bool.false_eq_true,
            if_true, ite_self]
          simp [Finset.mem_erase, hm]
      | true =>
          simp only [applyState_specialrights_specialRights, ite_self]
          simp [Finset.mem_insert, hm]
  | check cur fut => simp [touchesKey] at hc
  | attackers cur fut => simp [touchesKey] at hc
  | enpassant cur fut => simp [touchesKey] at hc
  | moverulestate cur fut => simp [touchesKey] at hc

/-- Generic frame lemma: a projection of the gamefile untouched by every
record of a list is untouched by the whole replay loop. -/
theorem applyStates_frame_char {ε : Type} {α : Sort u} (proj : Gamefile ε → α)
    (pred : StateChange → Bool)
    (hframe : ∀ (g : Gamefile ε) (c : StateChange) (f : Bool), pred c = false →
      proj (applyState g c f) = proj g) :
    ∀ (L : List StateChange) (g : Gamefile ε) (f : Bool), L.any pred = false →
      proj (applyStates g L f) = proj g := by
  intro L
  induction L with
  | nil => intro g f _; rfl
  | cons c rest ih =>
      intro g f hL
      rw [List.any_cons, Bool.or_eq_false_iff] at hL
      rw [applyStates_cons, ih _ f hL.2, hframe g c f hL.1]

/-- Generic characterization of the backward replay loop when every
record's `current` matches the reference gamefile `g0`: a projection ends
at its `g0` value if some record of the list sets it, else at its starting
value. -/
theorem applyStates_back_char {ε : Type} {α : Sort u} (proj : Gamefile ε → α)
    (pred : StateChange → Bool) (g0 : Gamefile ε)
    (hframe : ∀ (g : Gamefile ε) (c : StateChange) (f : Bool), pred c = false →
      proj (applyState g c f) = proj g)
    (hset : ∀ (h : Gamefile ε) (c : StateChange), pred c = true → currentMatches g0 c →
      proj (applyState h c false) = proj g0) :
    ∀ (L : List StateChange), (∀ c ∈ L, currentMatches g0 c) →
      ∀ (h : Gamefile ε), proj (applyStates h L false) =
        if L.any pred then proj g0 else proj h := by
  intro L
  induction L with
  | nil => intro _ h; simp
  | cons c rest ih =>
      intro H h
      have Hc : currentMatches g0 c := H c (List.mem_cons_self c rest)
      have Hrest : ∀ x ∈ rest, currentMatches g0 x :=
        fun x hx => H x (List.mem_cons_of_mem c hx)
      rw [applyStates_cons, ih Hrest]
      by_cases hc : pred c = true
      · rw [hset h c hc Hc]
        simp [List.any_cons, hc]
      · have hc2 : pred c = false := by
          revert hc; cases pred c <;> simp
        rw [hframe h c false hc2]
        simp [List.any_cons, hc2]

theorem applyMove_global_eq {ε : Type} (g : Gamefile ε) (move : MoveState) (f : Bool) :
    applyMove g move f true = applyStates g (move.«local» ++ move.global) f := by
  simp [applyMove, applyStates_append]

theorem applyMove_local_eq {ε : Type} (g : Gamefile ε) (move : MoveState) (f : Bool) :
    applyMove g move f false = applyStates g move.«local» f := by
  simp [applyMove]

/-- C1: for every move whose local and global record sequences hold
factory-kind records and whose records' `current` values all match the
corresponding tracked fields of the gamefile, `applyMove` forward with
`globalChange` followed by `applyMove` backward with `globalChange` restores
every tracked field (check indicator, attacker list, en-passant record,
special-rights set, move-rule counter) to its exact pre-move value. -/
theorem c1_round_trip {ε : Type} (g : Gamefile ε) (move : MoveState)
    (hloc : ∀ c ∈ move.«local», localKind c = true)
    (hglob : ∀ c ∈ move.global, globalKind c = true)
    (H : ∀ c ∈ move.«local» ++ move.global, currentMatches g c) :
    (applyMove (applyMove g move true true) move false true).inCheck = g.inCheck ∧
    (applyMove (applyMove g move true true) move false true).attackers = g.attackers ∧
    (applyMove (applyMove g move true true) move false true).enpassant = g.enpassant ∧
    (applyMove (applyMove g move true true) move false true).specialRights = g.specialRights ∧
    (applyMove (applyMove g move true true) move false true).moveRuleState = g.moveRuleState := by
  rw [applyMove_global_eq, applyMove_global_eq]
  set L := move.«local» ++ move.global with hLdef
  set h := applyStates g L true with hdef
  refine ⟨?_, ?_, ?_, ?_, ?_⟩
  · have hib := applyStates_back_char (fun x => x.inCheck) isCheckChange g
      (fun x c f hf => applyState_frame_inCheck x c f hf)
      (fun x c hc hm => applyState_back_inCheck g x c hc hm) L H h
    by_cases hb : L.any isCheckChange
    · simpa [hb] using hib
    · simp only [Bool.not_eq_true] at hb
      rw [if_neg (by simp [hb])] at hib
      have hfr := applyStates_frame_char (fun x => x.inCheck) isCheckChange
        (fun x c f hf => applyState_frame_inCheck x c f hf) L g true hb
      exact hib.trans hfr
  · have hib := applyStates_back_char (fun x => x.attackers) isAttackersChange g
      (fun x c f hf => applyState_frame_attackers x c f hf)
      (fun x c hc hm => applyState_back_attackers g x c hc hm) L H h
    by_cases hb : L.any isAttackersChange
    · simpa [hb] using hib
    · simp only [Bool.not_eq_true] at hb
      rw [if_neg (by simp [hb])] at hib
      have hfr := applyStates_frame_char (fun x => x.attackers) isAttackersChange
        (fun x c f hf => applyState_frame_attackers x c f hf) L g true hb
      exact hib.trans hfr
  · have hib := applyStates_back_char (fun x => x.enpassant) isEnpassantChange g
      (fun x c f hf => applyState_frame_enpassant x c f hf)
      (fun x c hc hm => applyState_back_enpassant g x c hc hm) L H h
    by_cases hb : L.any isEnpassantChange
    · simpa [hb] using hib
    · simp only [Bool.not_eq_true] at hb
      rw [if_neg (by simp [hb])] at hib
      have hfr := applyStates_frame_char (fun x => x.enpassant) isEnpassantChange
        (fun x c f hf => applyState_frame_enpassant x c f hf) L g true hb
      exact hib.trans hfr
  · apply Finset.ext
    intro k
    have hib := applyStates_back_char (fun x => k ∈ x.specialRights) (touchesKey k) g
      (fun x c f hf => propext (applyState_frame_mem k x c f hf))
      (fun x c hc hm => propext (applyState_back_mem k g x c hc hm)) L H h
    by_cases hb : L.any (touchesKey k)
    · rw [if_pos hb] at hib
      exact hib.to_iff
    · simp only [Bool.not_eq_true] at hb
      rw [if_neg (by simp [hb])] at hib
      have hfr := applyStates_frame_char (fun x => k ∈ x.specialRights) (touchesKey k)
        (fun x c f hf => propext (applyState_frame_mem k x c f hf)) L g true hb
      exact (hib.trans hfr).to_iff
  · have hib := applyStates_back_char (fun x => x.moveRuleState) isMoveruleChange g
      (fun x c f hf => applyState_frame_moveRuleState x c f hf)
      (fun x c hc hm => applyState_back_moveRuleState g x c hc hm) L H h
    by_cases hb : L.any isMoveruleChange
    · simpa [hb] using hib
    · simp only [Bool.not_eq_true] at hb
      rw [if_neg (by simp [hb])] at hib
      have hfr := applyStates_frame_char (fun x => x.moveRuleState) isMoveruleChange
        (fun x c f hf => applyState_frame_moveRuleState x c f hf) L g true hb
      exact hib.trans hfr

/-- A concrete gamefile used to witness the round-trip law. -/
def c1Gamefile : Gamefile Unit :=
  { inCheck := none, attackers := [], enpassant := none,
    specialRights := {"5,1"}, moveRuleState := 3, extra := () }

/-- A concrete move with both local and global factory-kind records, whose
`current` values match `c1Gamefile`. -/
def c1Move : MoveState :=
  { «local» := [.check none (some [((4 : Int), (5 : Int))]),
                .attackers [] [{ coords := ((2 : Int), (2 : Int)), slidingCheck := true,
                                 path := none }]],
    global := [.specialrights true false "5,1",
               .moverulestate 3 0,
               .enpassant none (some { id := 0, val := { square := (3, 6), pawn := (3, 5) } })] }

/-- Witness for C1 at the concrete gamefile and move above. -/
theorem c1_round_trip_witness :
    (∀ c ∈ c1Move.«local», localKind c = true) ∧
    (∀ c ∈ c1Move.global, globalKind c = true) ∧
    (∀ c ∈ c1Move.«local» ++ c1Move.global, currentMatches c1Gamefile c) ∧
    ((applyMove (applyMove c1Gamefile c1Move true true) c1Move false true).inCheck =
        c1Gamefile.inCheck ∧
     (applyMove (applyMove c1Gamefile c1Move true true) c1Move false true).attackers =
        c1Gamefile.attackers ∧
     (applyMove (applyMove c1Gamefile c1Move true true) c1Move false true).enpassant =
        c1Gamefile.enpassant ∧
     (applyMove (applyMove c1Gamefile c1Move true true) c1Move false true).specialRights =
        c1Gamefile.specialRights ∧
     (applyMove (applyMove c1Gamefile c1Move true true) c1Move false true).moveRuleState =
        c1Gamefile.moveRuleState) :=
  ⟨by decide, by decide, by decide,
   c1_round_trip c1Gamefile c1Move (by decide) (by decide) (by decide)⟩

theorem find?_enpassant_none {L : List StateChange}
    (h : ∀ c ∈ L, isEnpassantChange c = false) :
    L.find? (fun state => isEnpassantChange state) = none :=
  List.find?_eq_none.mpr (fun x hx => by simp [h x hx])

theorem find?_enpassant_append {L : List StateChange} (a b : Option EnPassantRef)
    (h : ∀ c ∈ L, isEnpassantChange c = false) :
    (L ++ [StateChange.enpassant a b]).find? (fun state => isEnpassantChange state) =
      some (StateChange.enpassant a b) := by
  induction L with
  | nil => simp [List.find?, isEnpassantChange]
  | cons c rest ih =>
      have hc : isEnpassantChange c = false := h c (List.mem_cons_self c rest)
      have hrest : ∀ x ∈ rest, isEnpassantChange x = false :=
        fun x hx => h x (List.mem_cons_of_mem c hx)
      simp [List.find?, hc, ih hrest]

theorem overwriteFirstEnpassantFuture_append {L : List StateChange}
    (a b fut : Option EnPassantRef) (h : ∀ c ∈ L, isEnpassantChange c = false) :
    overwriteFirstEnpassantFuture (L ++ [StateChange.enpassant a b]) fut =
      L ++ [StateChange.enpassant a fut] := by
  induction L with
  | nil => rfl
  | cons c rest ih =>
      have hc : isEnpassantChange c = false := h c (List.mem_cons_self c rest)
      have hrest : ∀ x ∈ rest, isEnpassantChange x = false :=
        fun x hx => h x (List.mem_cons_of_mem c hx)
      cases c with
      | enpassant cur fut2 => simp [isEnpassantChange] at hc
      | check cur fut2 => simp [overwriteFirstEnpassantFuture, ih hrest]
      | attackers cur fut2 => simp [overwriteFirstEnpassantFuture, ih hrest]
      | specialrights cur fut2 k => simp [overwriteFirstEnpassantFuture, ih hrest]
      | moverulestate cur fut2 => simp [overwriteFirstEnpassantFuture, ih hrest]

/-- The en-passant object of the specification's concrete scenario 3
(`{square:[3,6],pawn:[3,5]}`). -/
def c2Ref : EnPassantRef := { id := 0, val := { square := (3, 6), pawn := (3, 5) } }

/-- C2 counterexample: recording `undefined → E` and then `E → undefined` on
a fresh move does NOT leave the global sequence empty: a stray record with
`current = undefined` and `future = undefined` remains, because the
overwrite path of `createEnPassantState` never re-checks the no-op
elision. -/
theorem c2_stray_record_counterexample :
    (createEnPassantState (createEnPassantState emptyMoveState none (some c2Ref))
        (some c2Ref) none).global = [StateChange.enpassant none none] ∧
    (createEnPassantState (createEnPassantState emptyMoveState none (some c2Ref))
        (some c2Ref) none).global ≠ [] := by
  decide

/-- C2 (amended): for every move whose global sequence has no en-passant
record yet, recording `undefined → E` and then `E → undefined` coalesces
into a single en-passant record with `current = undefined` and
`future = undefined`, which REMAINS in the move's global sequence (one
record, not zero: the coalesced no-op is not elided). -/
theorem c2_coalesce_to_noop (move : MoveState) (e : EnPassantRef)
    (h : ∀ c ∈ move.global, isEnpassantChange c = false) :
    (createEnPassantState (createEnPassantState move none (some e)) (some e) none).global =
      move.global ++ [StateChange.enpassant none none] := by
  have h1 : createEnPassantState move none (some e) =
      { move with global := move.global ++ [StateChange.enpassant none (some e)] } := by
    simp [createEnPassantState, find?_enpassant_none h]
  rw [h1]
  simp [createEnPassantState, find?_enpassant_append none (some e) h,
    overwriteFirstEnpassantFuture_append none (some e) none h]

/-- Witness for the amended C2 at the fresh move and the concrete
en-passant object of scenario 3. -/
theorem c2_coalesce_to_noop_witness :
    (∀ c ∈ emptyMoveState.global, isEnpassantChange c = false) ∧
    (createEnPassantState (createEnPassantState emptyMoveState none (some c2Ref))
        (some c2Ref) none).global =
      emptyMoveState.global ++ [StateChange.enpassant none none] :=
  ⟨by decide, c2_coalesce_to_noop emptyMoveState c2Ref (by decide)⟩

/-- One call to a factory function during move construction, with its
arguments: the five `create*State` entry points of the journal. -/
inductive FactoryOp where
  | checkOp (current future : InCheck)
  | attackersOp (current future : Attackers)
  | enpassantOp (current future : Option EnPassantRef)
  | specialrightsOp (coordsKey : Coords.Key) (current future : Bool)
  | moveruleOp (current future : Int)
deriving DecidableEq, Repr

/-- Performs one factory call on the move under construction and the
gamefile (the local factories also mutate the gamefile). -/
def runOp {ε : Type} : MoveState × Gamefile ε → FactoryOp → MoveState × Gamefile ε
  | (move, g), .checkOp current future => createCheckState move current future g
  | (move, g), .attackersOp current future => createAttackersState move current future g
  | (move, g), .enpassantOp current future => (createEnPassantState move current future, g)
  | (move, g), .specialrightsOp coordsKey current future =>
      (createSpecialRightsState move coordsKey current future, g)
  | (move, g), .moveruleOp current future => (createMoveRuleState move current future, g)

/-- Populates a move via a sequence of factory calls, in order. -/
def runOps {ε : Type} (s : MoveState × Gamefile ε) (ops : List FactoryOp) :
    MoveState × Gamefile ε :=
  ops.foldl runOp s

theorem overwriteFirstEnpassantFuture_countP (L : List StateChange)
    (fut : Option EnPassantRef) :
    (overwriteFirstEnpassantFuture L fut).countP isEnpassantChange =
      L.countP isEnpassantChange := by
  induction L with
  | nil => rfl
  | cons c rest ih =>
      cases c with
      | enpassant cur fut2 =>
          simp [overwriteFirstEnpassantFuture, List.countP_cons, isEnpassantChange]
      | check cur fut2 => simp [overwriteFirstEnpassantFuture, List.countP_cons, ih]
      | attackers cur fut2 => simp [overwriteFirstEnpassantFuture, List.countP_cons, ih]
      | specialrights cur fut2 k => simp [overwriteFirstEnpassantFuture, List.countP_cons, ih]
      | moverulestate cur fut2 => simp [overwriteFirstEnpassantFuture, List.countP_cons, ih]

theorem createEnPassantState_countP_le (move : MoveState)
    (current future : Option EnPassantRef)
    (h : move.global.countP isEnpassantChange ≤ 1) :
    (createEnPassantState move current future).global.countP isEnpassantChange ≤ 1 := by
  by_cases he : current = future
  · simpa [createEnPassantState, he] using h
  · by_cases hf : (move.global.find? (fun state => isEnpassantChange state)).isSome
    · simp [createEnPassantState, he, hf, overwriteFirstEnpassantFuture_countP]
      exact h
    · have hn : move.global.find? (fun state => isEnpassantChange state) = none := by
        revert hf
        cases move.global.find? (fun state => isEnpassantChange state) <;> simp
      have hz : move.global.countP isEnpassantChange = 0 :=
        List.countP_eq_zero.mpr (List.find?_eq_none.mp hn)
      unfold createEnPassantState
      rw [if_neg he, hn]
      simp [List.countP_append, hz, isEnpassantChange]

theorem runOp_countP_le {ε : Type} (s : MoveState × Gamefile ε) (op : FactoryOp)
    (h : s.1.global.countP isEnpassantChange ≤ 1) :
    (runOp s op).1.global.countP isEnpassantChange ≤ 1 := by
  obtain ⟨move, g⟩ := s
  cases op with
  | checkOp current future => exact h
  | attackersOp current future => exact h
  | enpassantOp current future => exact createEnPassantState_countP_le move current future h
  | specialrightsOp coordsKey current future =>
      by_cases he : current = future
      · simpa [runOp, createSpecialRightsState, he] using h
      · simpa [runOp, createSpecialRightsState, he, List.countP_append,
          isEnpassantChange] using h
  | moveruleOp current future =>
      by_cases he : current = future
      · simpa [runOp, createMoveRuleState, he] using h
      · simpa [runOp, createMoveRuleState, he, List.countP_append, isEnpassantChange] using h

theorem runOps_countP_le {ε : Type} (ops : List FactoryOp) (s : MoveState × Gamefile ε)
    (h : s.1.global.countP isEnpassantChange ≤ 1) :
    (runOps s ops).1.global.countP isEnpassantChange ≤ 1 := by
  induction ops generalizing s with
  | nil => exact h
  | cons op rest ih => exact ih (runOp s op) (runOp_countP_le s op h)

/-- C3: a move populated by any sequence of factory calls holds at most one
en-passant record in its global sequence; in particular, recording
en-passant `A → B` and then `B → C` (`A`, `B`, `C` pairwise distinct, no
prior en-passant record) yields exactly one en-passant record, with
`current = A` and `future = C`. -/
theorem c3_global_coalescing :
    (∀ (ε : Type) (g : Gamefile ε) (ops : List FactoryOp),
      (runOps (emptyMoveState, g) ops).1.global.countP isEnpassantChange ≤ 1) ∧
    (∀ (move : MoveState) (A B C : Option EnPassantRef),
      A ≠ B → B ≠ C → A ≠ C → (∀ c ∈ move.global, isEnpassantChange c = false) →
      (createEnPassantState (createEnPassantState move A B) B C).global.filter
        isEnpassantChange = [StateChange.enpassant A C]) := by
  constructor
  · intro ε g ops
    exact runOps_countP_le ops (emptyMoveState, g) (by simp [emptyMoveState])
  · intro move A B C hab hbc _hac h
    have h1 : createEnPassantState move A B =
        { move with global := move.global ++ [StateChange.enpassant A B] } := by
      simp [createEnPassantState, hab, find?_enpassant_none h]
    rw [h1]
    have h2 : (createEnPassantState
        { move with global := move.global ++ [StateChange.enpassant A B] } B C).global =
          move.global ++ [StateChange.enpassant A C] := by
      simp [createEnPassantState, hbc, find?_enpassant_append A B h,
        overwriteFirstEnpassantFuture_append A B C h]
    rw [h2, List.filter_append]
    have hemp : move.global.filter isEnpassantChange = [] :=
      List.filter_eq_nil_iff.mpr (fun a ha => by simp [h a ha])
    simp [hemp, isEnpassantChange]

/-- Distinct concrete en-passant objects for the C3 witness. -/
def c3RefB : EnPassantRef := { id := 1, val := { square := (3, 6), pawn := (3, 5) } }

/-- A second distinct concrete en-passant object for the C3 witness. -/
def c3RefC : EnPassantRef := { id := 2, val := { square := (5, 3), pawn := (5, 4) } }

/-- Witness for C3: the invariant on a concrete factory-call sequence, and
the coalescing scenario at concrete distinct values `A`, `B`, `C`. -/
theorem c3_global_coalescing_witness :
    ((runOps (emptyMoveState,
        ({ inCheck := none, attackers := [], enpassant := none, specialRights := ∅,
           moveRuleState := 0, extra := () } : Gamefile Unit))
        [FactoryOp.enpassantOp none (some c3RefB),
         FactoryOp.moveruleOp 0 1]).1.global.countP isEnpassantChange ≤ 1) ∧
    ((none : Option EnPassantRef) ≠ some c3RefB ∧
      (some c3RefB : Option EnPassantRef) ≠ some c3RefC ∧
      (none : Option EnPassantRef) ≠ some c3RefC ∧
      (∀ c ∈ emptyMoveState.global, isEnpassantChange c = false)) ∧
    (createEnPassantState (createEnPassantState emptyMoveState none (some c3RefB))
        (some c3RefB) (some c3RefC)).global.filter isEnpassantChange =
      [StateChange.enpassant none (some c3RefC)] :=
  ⟨c3_global_coalescing.1 Unit _ _,
   ⟨by decide, by decide, by decide, by decide⟩,
   c3_global_coalescing.2 emptyMoveState none (some c3RefB) (some c3RefC)
     (by decide) (by decide) (by decide) (by decide)⟩

/-- C4: every global recorder called with `current` equal to `future`
appends nothing: the move (in particular `move.global`, its length and
contents) is returned unchanged. -/
theorem c4_noop_elision :
    (∀ (move : MoveState) (x : Option EnPassantRef), createEnPassantState move x x = move) ∧
    (∀ (move : MoveState) (k : Coords.Key) (b : Bool),
      createSpecialRightsState move k b b = move) ∧
    (∀ (move : MoveState) (n : Int), createMoveRuleState move n n = move) := by
  refine ⟨fun move x => ?_, fun move k b => ?_, fun move n => ?_⟩
  · simp [createEnPassantState]
  · simp [createSpecialRightsState]
  · simp [createMoveRuleState]

theorem localKind_not_global (c : StateChange) (h : localKind c = true) :
    isEnpassantChange c = false ∧ (∀ k : Coords.Key, touchesKey k c = false) ∧
      isMoveruleChange c = false := by
  cases c <;> simp_all [localKind, isCheckChange, isAttackersChange, isEnpassantChange,
    touchesKey, isMoveruleChange]

/-- C5: for a move whose local records are of the local factory kinds
(check/attackers) and whose global records are of the global factory kinds,
`applyMove` forward without `globalChange` leaves the en-passant field, the
special-rights set, the move-rule counter — and every untracked field — of
the gamefile unchanged. -/
theorem c5_local_scope_isolation {ε : Type} (g : Gamefile ε) (move : MoveState)
    (hloc : ∀ c ∈ move.«local», localKind c = true)
    (hglob : ∀ c ∈ move.global, globalKind c = true) :
    (applyMove g move true false).enpassant = g.enpassant ∧
    (applyMove g move true false).specialRights = g.specialRights ∧
    (applyMove g move true false).moveRuleState = g.moveRuleState ∧
    (applyMove g move true false).extra = g.extra := by
  rw [applyMove_local_eq]
  refine ⟨?_, ?_, ?_, applyStates_extra g move.«local» true⟩
  · exact applyStates_frame_char (fun x => x.enpassant) isEnpassantChange
      (fun x c f hf => applyState_frame_enpassant x c f hf) move.«local» g true
      (List.any_eq_false.mpr
        (fun c hc => by simp [(localKind_not_global c (hloc c hc)).1]))
  · apply Finset.ext
    intro k
    exact (applyStates_frame_char (fun x => k ∈ x.specialRights) (touchesKey k)
      (fun x c f hf => propext (applyState_frame_mem k x c f hf)) move.«local» g true
      (List.any_eq_false.mpr
        (fun c hc => by simp [(localKind_not_global c (hloc c hc)).2.1 k]))).to_iff
  · exact applyStates_frame_char (fun x => x.moveRuleState) isMoveruleChange
      (fun x c f hf => applyState_frame_moveRuleState x c f hf) move.«local» g true
      (List.any_eq_false.mpr
        (fun c hc => by simp [(localKind_not_global c (hloc c hc)).2.2]))

/-- Witness for C5 at the concrete gamefile and move used for the
round-trip witness. -/
theorem c5_local_scope_isolation_witness :
    (∀ c ∈ c1Move.«local», localKind c = true) ∧
    (∀ c ∈ c1Move.global, globalKind c = true) ∧
    ((applyMove c1Gamefile c1Move true false).enpassant = c1Gamefile.enpassant ∧
     (applyMove c1Gamefile c1Move true false).specialRights = c1Gamefile.specialRights ∧
     (applyMove c1Gamefile c1Move true false).moveRuleState = c1Gamefile.moveRuleState ∧
     (applyMove c1Gamefile c1Move true false).extra = c1Gamefile.extra) :=
  ⟨by decide, by decide,
   c5_local_scope_isolation c1Gamefile c1Move (by decide) (by decide)⟩

/-- C6: `applyMove` applies `move.local` in insertion order and, when
`globalChange` is set, afterwards applies `move.global` in insertion order;
the loop processes the head record first for either value of the direction
flag, so reversing the direction never reverses the record order. -/
theorem c6_order_preservation {ε : Type} (g : Gamefile ε) (move : MoveState)
    (forward : Bool) :
    applyMove g move forward true =
      applyStates (applyStates g move.«local» forward) move.global forward ∧
    applyMove g move forward false = applyStates g move.«local» forward ∧
    (∀ (c : StateChange) (rest : List StateChange),
      applyStates g (c :: rest) forward = applyStates (applyState g c forward) rest forward) :=
  ⟨by simp [applyMove], by simp [applyMove], fun c rest => rfl⟩

/-- C7: the local recorders always append their record to `move.local`
(no elision, even when `current` equals `future`), leave `move.global`
untouched, and synchronously apply the record forward, so the gamefile's
check indicator (resp. attacker list) immediately equals the `future`
value. -/
theorem c7_local_recorders_append_and_apply {ε : Type} (g : Gamefile ε) (move : MoveState) :
    (∀ (current future : InCheck),
      (createCheckState move current future g).1.«local» =
        move.«local» ++ [StateChange.check current future] ∧
      (createCheckState move current future g).1.global = move.global ∧
      (createCheckState move current future g).2.inCheck = future) ∧
    (∀ (current future : Attackers),
      (createAttackersState move current future g).1.«local» =
        move.«local» ++ [StateChange.attackers current future] ∧
      (createAttackersState move current future g).1.global = move.global ∧
      (createAttackersState move current future g).2.attackers = future) := by
  refine ⟨fun current future => ⟨rfl, rfl, ?_⟩, fun current future => ⟨rfl, rfl, ?_⟩⟩
  · simp [createCheckState]
  · simp [createAttackersState]

/-- C8: applying a single `specialrights` record with `current = true` and
`future = false` forward removes the record's square key from the
special-rights set, and applying it backward re-inserts the key. -/
theorem c8_specialrights_forward_backward {ε : Type} (g : Gamefile ε) (k : Coords.Key) :
    (applyState g (.specialrights true false k) true).specialRights =
      g.specialRights.erase k ∧
    (applyState g (.specialrights true false k) false).specialRights =
      insert k g.specialRights := by
  constructor <;> simp

/-- C9: `applyState` mutates at most the five tracked fields, each record
kind mutating only the field belonging to that kind, and `applyMove`
(hence every replay) leaves every untracked field (`extra`) of the gamefile
unchanged. -/
theorem c9_apply_frame {ε : Type} (g : Gamefile ε) (f : Bool) :
    (∀ (current future : InCheck),
      (applyState g (.check current future) f).attackers = g.attackers ∧
      (applyState g (.check current future) f).enpassant = g.enpassant ∧
      (applyState g (.check current future) f).specialRights = g.specialRights ∧
      (applyState g (.check current future) f).moveRuleState = g.moveRuleState ∧
      (applyState g (.check current future) f).extra = g.extra) ∧
    (∀ (current future : Attackers),
      (applyState g (.attackers current future) f).inCheck = g.inCheck ∧
      (applyState g (.attackers current future) f).enpassant = g.enpassant ∧
      (applyState g (.attackers current future) f).specialRights = g.specialRights ∧
      (applyState g (.attackers current future) f).moveRuleState = g.moveRuleState ∧
      (applyState g (.attackers current future) f).extra = g.extra) ∧
    (∀ (current future : Option EnPassantRef),
      (applyState g (.enpassant current future) f).inCheck = g.inCheck ∧
      (applyState g (.enpassant current future) f).attackers = g.attackers ∧
      (applyState g (.enpassant current future) f).specialRights = g.specialRights ∧
      (applyState g (.enpassant current future) f).moveRuleState = g.moveRuleState ∧
      (applyState g (.enpassant current future) f).extra = g.extra) ∧
    (∀ (current future : Bool) (k : Coords.Key),
      (applyState g (.specialrights current future k) f).inCheck = g.inCheck ∧
      (applyState g (.specialrights current future k) f).attackers = g.attackers ∧
      (applyState g (.specialrights current future k) f).enpassant = g.enpassant ∧
      (applyState g (.specialrights current future k) f).moveRuleState = g.moveRuleState ∧
      (applyState g (.specialrights current future k) f).extra = g.extra) ∧
    (∀ (current future : Int),
      (applyState g (.moverulestate current future) f).inCheck = g.inCheck ∧
      (applyState g (.moverulestate current future) f).attackers = g.attackers ∧
      (applyState g (.moverulestate current future) f).enpassant = g.enpassant ∧
      (applyState g (.moverulestate current future) f).specialRights = g.specialRights ∧
      (applyState g (.moverulestate current future) f).extra = g.extra) ∧
    (∀ (move : MoveState) (fwd gc : Bool), (applyMove g move fwd gc).extra = g.extra) := by
  refine ⟨fun current future => ⟨rfl, ?_, rfl, rfl, ?_⟩,
          fun current future => ⟨rfl, ?_, rfl, rfl, ?_⟩,
          fun current future => ⟨?_, ?_, ?_, ?_, ?_⟩,
          fun current future k => ⟨?_, ?_, ?_, ?_, ?_⟩,
          fun current future => ⟨rfl, rfl, ?_, rfl, ?_⟩,
          fun move fwd gc => ?_⟩
  · rw [applyState_check_eq]
  · exact applyState_extra g (.check current future) f
  · rw [applyState_attackers_eq]
  · exact applyState_extra g (.attackers current future) f
  · rw [applyState_enpassant_eq]
  · rw [applyState_enpassant_eq]
  · rw [applyState_enpassant_eq]
  · rw [applyState_enpassant_eq]
  · exact applyState_extra g (.enpassant current future) f
  · exact applyState_specialrights_inCheck g current future k f
  · exact applyState_specialrights_attackers g current future k f
  · exact applyState_specialrights_enpassant g current future k f
  · exact applyState_specialrights_moveRuleState g current future k f
  · exact applyState_extra g (.specialrights current future k) f
  · rw [applyState_moverule_eq]
  · exact applyState_extra g (.moverulestate current future) f
  · cases gc <;> simp [applyMove, applyStates_extra]

/-- Concrete structurally equal but distinct en-passant objects for C10. -/
def c10Val : EnPassant := { square := (3, 6), pawn := (3, 5) }

/-- First of two structurally equal but distinct objects (id 1). -/
def c10RefA : EnPassantRef := { id := 1, val := c10Val }

/-- Second of two structurally equal but distinct objects (id 2). -/
def c10RefB : EnPassantRef := { id := 2, val := c10Val }

/-- A move that already holds an en-passant record. -/
def c10Move : MoveState :=
  { «local» := [], global := [StateChange.enpassant none (some { id := 0, val := c10Val })] }

/-- C10 counterexample: on a move whose global sequence already holds an
en-passant record, `createEnPassantState` with two structurally equal but
distinct objects does NOT append a record — it overwrites the existing
record's `future`, leaving the length unchanged — so the claim's "for every
move … does append a record" fails. -/
theorem c10_overwrite_counterexample :
    c10RefA.val = c10RefB.val ∧ c10RefA ≠ c10RefB ∧
    (createEnPassantState c10Move (some c10RefA) (some c10RefB)).global.length =
      c10Move.global.length ∧
    (createEnPassantState c10Move (some c10RefA) (some c10RefB)).global =
      [StateChange.enpassant none (some c10RefB)] := by
  decide

/-- C10 (amended): the en-passant recorder's no-op elision compares by
reference identity, not structural equality: for every move whose global
sequence holds no en-passant record yet, and every pair of structurally
equal but distinct objects `e1`, `e2`, `createEnPassantState` appends a
record, so a record whose `current` and `future` are structurally equal
values can exist in `move.global`. -/
theorem c10_reference_identity (move : MoveState) (e1 e2 : EnPassantRef)
    (hval : e1.val = e2.val) (hne : e1 ≠ e2)
    (h : ∀ c ∈ move.global, isEnpassantChange c = false) :
    (createEnPassantState move (some e1) (some e2)).global =
      move.global ++ [StateChange.enpassant (some e1) (some e2)] := by
  have hne2 : (some e1 : Option EnPassantRef) ≠ some e2 := by simpa using hne
  simp [createEnPassantState, hne2, find?_enpassant_none h]

/-- Witness for the amended C10 at the fresh move and the concrete
structurally equal objects. -/
theorem c10_reference_identity_witness :
    (c10RefA.val = c10RefB.val ∧ c10RefA ≠ c10RefB ∧
      (∀ c ∈ emptyMoveState.global, isEnpassantChange c = false)) ∧
    (createEnPassantState emptyMoveState (some c10RefA) (some c10RefB)).global =
      emptyMoveState.global ++ [StateChange.enpassant (some c10RefA) (some c10RefB)] :=
  ⟨⟨by decide, by decide, by decide⟩,
   c10_reference_identity emptyMoveState c10RefA c10RefB (by decide) (by decide) (by decide)⟩
